import Mathlib

/-!
Verification development for the `cyclonedds-rs` serialization engine.

Shallow embedding of the code in `src/serdes.rs`, `src/dds_writer.rs` and
`dds_derive/src/lib.rs`.  Bytes are modelled as `Nat` (values < 256 where the
code produces real bytes); machine-integer arithmetic is `Nat` arithmetic with
explicit `% 2 ^ w` where overflow matters.  Functions that can panic in Rust
(index out of bounds, slice out of range) return `Option`/an explicit `crashed`
outcome at the corresponding spot.

The external `cdr` crate (CDR big-endian wire codec) and the transport's
`ddsrt_md5` routines are not part of this repository's sources; they are
modelled from the specification (marked `Modelled from the spec:`) over a
representative universe of field types.
-/

set_option maxRecDepth 10000

/-! ### Fragment reader (`SGReader`, serdes.rs lines 1318-1370) -/

/-- The scatter-gather reader state, `struct SGReader` (serdes.rs:1318).
`sc_list` is `Option`al because `read` invalidates it (`self.sc_list.take()`)
once the last slice is consumed. -/
structure SGReader where
  sc_list : Option (List (List Nat))
  slice_cursor : Nat
  slice_offset : Nat
deriving DecidableEq

/-- `SGReader::new` (serdes.rs:1327). -/
def SGReader.new (sc_list : List (List Nat)) : SGReader :=
  ⟨some sc_list, 0, 0⟩

/-- `SGReader::read` (serdes.rs:1337-1369), for a caller buffer of length
`bufLen`.  Returns the bytes copied into the buffer and the successor state;
`none` models the Rust panic from `sc_list[slice_cursor]` /
`source_slice[slice_offset..]` indexing out of bounds. -/
def SGReader.read (st : SGReader) (bufLen : Nat) : Option (List Nat × SGReader) :=
  match st.sc_list with
  | some scList =>
    if st.slice_cursor < scList.length then
      let sourceSlice := scList.getD st.slice_cursor []
      if st.slice_offset ≤ sourceSlice.length then
        let rem := sourceSlice.length - st.slice_offset
        let copyLength := min rem bufLen
        let chunk := (sourceSlice.drop st.slice_offset).take copyLength
        if copyLength = rem then
          -- completed this slice. move to the next
          if scList.length ≤ st.slice_cursor + 1 then
            -- no more slices, invalidate the sc_list
            some (chunk, ⟨none, st.slice_cursor + 1, 0⟩)
          else
            some (chunk, ⟨some scList, st.slice_cursor + 1, 0⟩)
        else
          -- not completed the current slice, just bump up the slice offset
          some (chunk, ⟨some scList, st.slice_cursor, st.slice_offset + copyLength⟩)
      else none
    else none
  | none => some ([], st)

/-- The bytes the reader has not yet delivered. -/
def SGReader.remaining (st : SGReader) : List Nat :=
  match st.sc_list with
  | some scList => ((scList.drop st.slice_cursor).flatten).drop st.slice_offset
  | none => []

/-- Repeated `read` calls with the given sequence of caller-buffer lengths,
collecting everything delivered. -/
def runReads (st : SGReader) (bs : List Nat) : Option (List Nat × SGReader) :=
  match bs with
  | [] => some ([], st)
  | b :: rest =>
    match st.read b with
    | some (chunk, st1) =>
      match runReads st1 rest with
      | some (tail, st2) => some (chunk ++ tail, st2)
      | none => none
    | none => none

/-- The no-panic reader invariant relative to a fragment list `fs`: either the
list has been invalidated, or the cursor points at a real slice and the offset
is inside it. -/
def SGReader.OkFor (fs : List (List Nat)) (st : SGReader) : Prop :=
  st.sc_list = none ∨
    (st.sc_list = some fs ∧ st.slice_cursor < fs.length ∧
      st.slice_offset ≤ (fs.getD st.slice_cursor []).length)

/-- The strict invariant used when all fragments are non-empty: a live reader
always has at least one undelivered byte in the current slice, and the only
exhausted state reachable from `SGReader.new fs` is `⟨none, fs.length, 0⟩`. -/
def SGReader.GoodFor (fs : List (List Nat)) (st : SGReader) : Prop :=
  st = ⟨none, fs.length, 0⟩ ∨
    (st.sc_list = some fs ∧ st.slice_cursor < fs.length ∧
      st.slice_offset < (fs.getD st.slice_cursor []).length)


/-! ### Wire codec

Modelled from the spec: the external `cdr` crate used by serdes.rs
(`cdr::serialize`, `cdr::calc_serialized_size`, `cdr::deserialize_from` with
`CdrBe`/`Bounded`) is not part of this repository.  Following spec section 4.1 it
is modelled as a structured big-endian encoding with a 4-byte encapsulation
header, over a representative universe of field types: fixed-width unsigned
integers, doubles (carried as raw 8-byte big-endian bit patterns, so no
floating-point arithmetic is modelled), and strings.  A sample value is the
list of its fields in declaration order; primitives are aligned to their size
relative to the start of the payload (the byte after the header). -/

/-- Padding needed to align stream position `pos` to `align` bytes. -/
def alignPad (pos align : Nat) : Nat := (align - pos % align) % align

/-- `width` big-endian bytes of `v` (truncating above `256 ^ width`). -/
def beBytes (width v : Nat) : List Nat :=
  (List.range width).map (fun i => v / 256 ^ (width - 1 - i) % 256)

/-- Recompose big-endian bytes into a number. -/
def composeBE (bytes : List Nat) : Nat := bytes.foldl (fun a b => a * 256 + b) 0

/-- Field types of the representative universe. -/
inductive FieldTy where
  | tu8 | tu16 | tu32 | tu64 | tf64 | tstr
deriving DecidableEq

/-- Field values. `vf64` carries the raw 64 bits; `vstr` carries the string's
bytes (without the trailing NUL that the wire encoding adds). -/
inductive FieldVal where
  | vu8 (v : Nat)
  | vu16 (v : Nat)
  | vu32 (v : Nat)
  | vu64 (v : Nat)
  | vf64 (bits : Nat)
  | vstr (s : List Nat)
deriving DecidableEq

/-- CDR encoding of one field starting at payload position `pos`:
alignment padding, then the big-endian value; a string is a 4-byte length
(including the NUL), the bytes, and a NUL. -/
def encodeField (pos : Nat) : FieldVal → List Nat
  | .vu8 v => [v % 256]
  | .vu16 v => List.replicate (alignPad pos 2) 0 ++ beBytes 2 v
  | .vu32 v => List.replicate (alignPad pos 4) 0 ++ beBytes 4 v
  | .vu64 v => List.replicate (alignPad pos 8) 0 ++ beBytes 8 v
  | .vf64 b => List.replicate (alignPad pos 8) 0 ++ beBytes 8 b
  | .vstr s => List.replicate (alignPad pos 4) 0 ++ beBytes 4 (s.length + 1) ++ s ++ [0]

/-- CDR encoding of a field list; the stream position advances by the bytes
written, mirroring the crate's streaming serializer. -/
def encodeFields (pos : Nat) : List FieldVal → List Nat
  | [] => []
  | f :: fs => encodeField pos f ++ encodeFields (pos + (encodeField pos f).length) fs

/-- The crate's independent size computation for one field
(`cdr::calc_serialized_size` runs a size-only pass with its own position
counter). -/
def sizeField (pos : Nat) : FieldVal → Nat
  | .vu8 _ => 1
  | .vu16 _ => alignPad pos 2 + 2
  | .vu32 _ => alignPad pos 4 + 4
  | .vu64 _ => alignPad pos 8 + 8
  | .vf64 _ => alignPad pos 8 + 8
  | .vstr s => alignPad pos 4 + 4 + s.length + 1

/-- Size-only pass over a field list. -/
def sizeFields (pos : Nat) : List FieldVal → Nat
  | [] => 0
  | f :: fs => sizeField pos f + sizeFields (pos + sizeField pos f) fs

/-- `cdr::serialize::<_, _, CdrBe>(value, Infinite)`: the 4-byte `CdrBe`
encapsulation header `[0, 0, 0, 0]` followed by the payload. -/
def cdr_serialize (v : List FieldVal) : List Nat := [0, 0, 0, 0] ++ encodeFields 0 v

/-- `cdr::calc_serialized_size`: 4 header bytes plus the payload size. -/
def calc_serialized_size (v : List FieldVal) : Nat := 4 + sizeFields 0 v

/-! ### Serialized data cell (serdes.rs lines 1193-1296) -/

/-- `enum SampleData<T>` (serdes.rs:1194).  The `SHMData` pointer is modelled
as an opaque id. -/
inductive SampleData where
  | Uninitialized
  | SDKKey
  | SDKData (v : List FieldVal)
  | SHMData (p : Nat)
deriving DecidableEq

/-- `enum KeyHash` (serdes.rs:1209): either a 20-byte buffer whose first four
bytes are reserved for the CDR encapsulation header, or a raw 16-byte value. -/
inductive KeyHash where
  | None
  | CdrKey (k : List Nat)
  | RawKey (k : List Nat)
deriving DecidableEq

/-- `KeyHash::key_length` (serdes.rs:1229). -/
def KeyHash.key_length : KeyHash → Nat
  | .CdrKey k => k.length
  | .RawKey k => k.length
  | .None => 0

/-- The fields of `SerData<T>` (serdes.rs:1240) that the claims are about. -/
structure SerDataModel where
  sample : SampleData
  key_hash : KeyHash
deriving DecidableEq

/-- `get_size` (serdes.rs:703-727): 0 when uninitialized, the stored key-hash
buffer length for a key-only cell, `cdr::calc_serialized_size` of the decoded
value for a data cell, and 0 for shared-memory data (the code refuses to
serialize it). -/
def get_size (sd : SerDataModel) : Nat :=
  match sd.sample with
  | .Uninitialized => 0
  | .SDKKey => sd.key_hash.key_length
  | .SDKData v => calc_serialized_size v
  | .SHMData _ => 0

/-- `serialize_type` (serdes.rs:856-871).  With `Some size` the code only
pre-allocates a capacity of `(size + 3) & !3` — the bytes written are the same
unbounded `CdrBe` encoding in both branches. -/
def serialize_type (sample : List FieldVal) (maybe_size : Option Nat) : List Nat :=
  match maybe_size with
  | some _ => cdr_serialize sample
  | none => cdr_serialize sample

/-! ### Streaming decoder over the fragment reader

Modelled from the spec (section 4.1): `cdr::deserialize_from::<_, T, _>(reader,
Bounded(size))` reads through the `Read` instance of `SGReader`, fails with a
clean decode error on malformed or truncated input or when the bound is
exceeded, and never reads out of bounds.  `crashed` marks a Rust panic
(reachable only through `SGReader::read` indexing an empty scatter-gather
list); `error` is a clean `Err` the callbacks turn into a null pointer. -/

inductive POutcome (a : Type) where
  | ok (x : a)
  | error
  | crashed
deriving DecidableEq

def POutcome.bind {a b : Type} : POutcome a → (a → POutcome b) → POutcome b
  | .ok x, f => f x
  | .error, _ => .error
  | .crashed, _ => .crashed

/-- `Read::read_exact` on `SGReader`, with structural fuel (the loop makes at
most `n` iterations since every continuing `read` returns at least one byte).
A `read` of 0 bytes before the buffer is filled is `UnexpectedEof`. -/
def readExactGo : Nat → SGReader → Nat → POutcome (List Nat × SGReader)
  | _, st, 0 => .ok ([], st)
  | 0, _, _ + 1 => .error
  | fuel + 1, st, n + 1 =>
    match st.read (n + 1) with
    | none => .crashed
    | some (chunk, st1) =>
      if chunk.length = 0 then .error
      else
        match readExactGo fuel st1 (n + 1 - chunk.length) with
        | .ok (rest, st2) => .ok (chunk ++ rest, st2)
        | .error => .error
        | .crashed => .crashed

def readExact (st : SGReader) (n : Nat) : POutcome (List Nat × SGReader) :=
  readExactGo n st n

/-- Read `n` bytes at payload position `pos` under the `Bounded size` limit
(the 4 header bytes count against the bound). -/
def readBytesAt (bound : Nat) (st : SGReader) (pos n : Nat) :
    POutcome (List Nat × SGReader × Nat) :=
  if bound < 4 + pos + n then .error
  else
    match readExact st n with
    | .ok (bytes, st1) => .ok (bytes, st1, pos + n)
    | .error => .error
    | .crashed => .crashed

/-- Alignment padding is read (and discarded) through the reader, then the
value bytes. -/
def readAligned (bound : Nat) (st : SGReader) (pos align n : Nat) :
    POutcome (List Nat × SGReader × Nat) :=
  (readBytesAt bound st pos (alignPad pos align)).bind fun r =>
    readBytesAt bound r.2.1 r.2.2 n

/-- Recompose bytes read from the wire; `isLE` selects the byte order named by
the encapsulation header. -/
def composeEnd (isLE : Bool) (bytes : List Nat) : Nat :=
  composeBE (if isLE then bytes.reverse else bytes)

def decodeField (isLE : Bool) (bound : Nat) (ty : FieldTy) (st : SGReader) (pos : Nat) :
    POutcome (FieldVal × SGReader × Nat) :=
  match ty with
  | .tu8 =>
    (readBytesAt bound st pos 1).bind fun r => .ok (.vu8 (r.1.getD 0 0), r.2.1, r.2.2)
  | .tu16 =>
    (readAligned bound st pos 2 2).bind fun r => .ok (.vu16 (composeEnd isLE r.1), r.2.1, r.2.2)
  | .tu32 =>
    (readAligned bound st pos 4 4).bind fun r => .ok (.vu32 (composeEnd isLE r.1), r.2.1, r.2.2)
  | .tu64 =>
    (readAligned bound st pos 8 8).bind fun r => .ok (.vu64 (composeEnd isLE r.1), r.2.1, r.2.2)
  | .tf64 =>
    (readAligned bound st pos 8 8).bind fun r => .ok (.vf64 (composeEnd isLE r.1), r.2.1, r.2.2)
  | .tstr =>
    (readAligned bound st pos 4 4).bind fun r =>
      if composeEnd isLE r.1 = 0 then .error
      else
        (readBytesAt bound r.2.1 r.2.2 (composeEnd isLE r.1)).bind fun r2 =>
          .ok (.vstr (r2.1.take (composeEnd isLE r.1 - 1)), r2.2.1, r2.2.2)

def decodeFields (isLE : Bool) (bound : Nat) :
    List FieldTy → SGReader → Nat → POutcome (List FieldVal × SGReader × Nat)
  | [], st, pos => .ok ([], st, pos)
  | t :: ts, st, pos =>
    (decodeField isLE bound t st pos).bind fun r =>
      (decodeFields isLE bound ts r.2.1 r.2.2).bind fun r2 =>
        .ok (r.1 :: r2.1, r2.2.1, r2.2.2)

/-- `cdr::deserialize_from` over the scatter-gather reader: read the 4-byte
encapsulation header (identifier byte 0 must be 0; byte 1 names one of the
four CDR representations, the low bit selecting little-endian), then the
payload fields with the position counter reset after the header. -/
def deserialize_sample (tys : List FieldTy) (frags : List (List Nat)) (size : Nat) :
    POutcome (List FieldVal) :=
  (if size < 4 then POutcome.error else readExact (SGReader.new frags) 4).bind fun r =>
    match r.1 with
    | [b0, b1, _, _] =>
      if b0 = 0 ∧ b1 < 4 then
        (decodeFields (b1 % 2 == 1) size tys r.2 0).bind fun r2 => .ok r2.1
      else .error
    | _ => .error

/-! ### MD5 (Modelled from the spec: the transport's `ddsrt_md5_init` /
`ddsrt_md5_append` / `ddsrt_md5_finish`, which compute standard RFC 1321 MD5).
All 32-bit arithmetic is `Nat` arithmetic modulo `2 ^ 32`. -/

/-- `width` little-endian bytes of `v`. -/
def leBytes (width v : Nat) : List Nat :=
  (List.range width).map (fun i => v / 256 ^ i % 256)

def md5K : List Nat :=
  [0xd76aa478, 0xe8c7b756, 0x242070db, 0xc1bdceee,
   0xf57c0faf, 0x4787c62a, 0xa8304613, 0xfd469501,
   0x698098d8, 0x8b44f7af, 0xffff5bb1, 0x895cd7be,
   0x6b901122, 0xfd987193, 0xa679438e, 0x49b40821,
   0xf61e2562, 0xc040b340, 0x265e5a51, 0xe9b6c7aa,
   0xd62f105d, 0x02441453, 0xd8a1e681, 0xe7d3fbc8,
   0x21e1cde6, 0xc33707d6, 0xf4d50d87, 0x455a14ed,
   0xa9e3e905, 0xfcefa3f8, 0x676f02d9, 0x8d2a4c8a,
   0xfffa3942, 0x8771f681, 0x6d9d6122, 0xfde5380c,
   0xa4beea44, 0x4bdecfa9, 0xf6bb4b60, 0xbebfbc70,
   0x289b7ec6, 0xeaa127fa, 0xd4ef3085, 0x04881d05,
   0xd9d4d039, 0xe6db99e5, 0x1fa27cf8, 0xc4ac5665,
   0xf4292244, 0x432aff97, 0xab9423a7, 0xfc93a039,
   0x655b59c3, 0x8f0ccc92, 0xffeff47d, 0x85845dd1,
   0x6fa87e4f, 0xfe2ce6e0, 0xa3014314, 0x4e0811a1,
   0xf7537e82, 0xbd3af235, 0x2ad7d2bb, 0xeb86d391]

def md5S : List Nat :=
  [7, 12, 17, 22, 7, 12, 17, 22, 7, 12, 17, 22, 7, 12, 17, 22,
   5, 9, 14, 20, 5, 9, 14, 20, 5, 9, 14, 20, 5, 9, 14, 20,
   4, 11, 16, 23, 4, 11, 16, 23, 4, 11, 16, 23, 4, 11, 16, 23,
   6, 10, 15, 21, 6, 10, 15, 21, 6, 10, 15, 21, 6, 10, 15, 21]

def rotl32 (x s : Nat) : Nat := ((x <<< s) ||| (x >>> (32 - s))) % 4294967296

def md5F (b c d : Nat) : Nat := (b &&& c) ||| ((b ^^^ 4294967295) &&& d)

def md5G (b c d : Nat) : Nat := (d &&& b) ||| ((d ^^^ 4294967295) &&& c)

def md5H (b c d : Nat) : Nat := b ^^^ c ^^^ d

def md5I (b c d : Nat) : Nat := c ^^^ (b ||| (d ^^^ 4294967295))

/-- Word `j` of a 64-byte block, little-endian. -/
def md5Word (block : List Nat) (j : Nat) : Nat :=
  block.getD (4 * j) 0 + 256 * block.getD (4 * j + 1) 0
    + 65536 * block.getD (4 * j + 2) 0 + 16777216 * block.getD (4 * j + 3) 0

def md5Round (block : List Nat) (st : Nat × Nat × Nat × Nat) (i : Nat) :
    Nat × Nat × Nat × Nat :=
  let a := st.1
  let b := st.2.1
  let c := st.2.2.1
  let d := st.2.2.2
  let f :=
    if i < 16 then md5F b c d
    else if i < 32 then md5G b c d
    else if i < 48 then md5H b c d
    else md5I b c d
  let g :=
    if i < 16 then i
    else if i < 32 then (5 * i + 1) % 16
    else if i < 48 then (3 * i + 5) % 16
    else (7 * i) % 16
  let tmp := (f + a + md5K.getD i 0 + md5Word block g) % 4294967296
  (d, (b + rotl32 tmp (md5S.getD i 0)) % 4294967296, b, c)

def md5Compress (st : Nat × Nat × Nat × Nat) (block : List Nat) :
    Nat × Nat × Nat × Nat :=
  let r := (List.range 64).foldl (md5Round block) st
  ((st.1 + r.1) % 4294967296, (st.2.1 + r.2.1) % 4294967296,
   (st.2.2.1 + r.2.2.1) % 4294967296, (st.2.2.2 + r.2.2.2) % 4294967296)

/-- RFC 1321 padding: a 0x80 byte, zeros up to 56 mod 64, then the bit length
as 8 little-endian bytes. -/
def md5Pad (msg : List Nat) : List Nat :=
  msg ++ [128] ++ List.replicate ((119 - msg.length % 64) % 64) 0
    ++ leBytes 8 (8 * msg.length)

/-- The padded message cut into 64-byte blocks (its length is always a
positive multiple of 64). -/
def md5Blocks (l : List Nat) : List (List Nat) :=
  (List.range ((l.length + 63) / 64)).map (fun i => (l.drop (64 * i)).take 64)

def md5Digest (msg : List Nat) : Nat × Nat × Nat × Nat :=
  (md5Blocks (md5Pad msg)).foldl md5Compress (1732584193, 4023233417, 2562383102, 271733878)

def md5 (msg : List Nat) : List Nat :=
  leBytes 4 (md5Digest msg).1 ++ leBytes 4 (md5Digest msg).2.1
    ++ leBytes 4 (md5Digest msg).2.2.1 ++ leBytes 4 (md5Digest msg).2.2.2

/-! ### Key hash engine (serdes.rs lines 532-593, 1030-1049) -/

/-- `compute_key_hash` (serdes.rs:540-560).  `key_cdr` is the key's CDR bytes
as passed by the callers, i.e. with the leading 4-byte header already
stripped.  The 20-byte buffer starts zeroed; `ddsrt_md5_finish` writes the 16
digest bytes at offset 0, and the raw branch copies `key_cdr` at offset 0
(its length is at most 16 in that branch, so the buffer is the bytes followed
by zeros). -/
def compute_key_hash (force_md5 : Bool) (key_cdr : List Nat) : KeyHash :=
  if force_md5 || decide (16 < key_cdr.length) then
    KeyHash.CdrKey (md5 key_cdr ++ List.replicate 4 0)
  else
    KeyHash.CdrKey (key_cdr ++ List.replicate (20 - key_cdr.length) 0)

/-- `get_keyhash` (serdes.rs:1031-1049): the bytes written into the out
parameter `keyhash.value` — for a `CdrKey` the stored buffer with its first 4
bytes skipped, for a `RawKey` the stored 16 bytes, and nothing for `None`. -/
def get_keyhash (kh : KeyHash) : List Nat :=
  match kh with
  | .None => []
  | .CdrKey k => k.drop 4
  | .RawKey k => k

/-- The token a cell built by a decode callback exposes (empty for a null or
panicked callback result). -/
def keyhash_token_of (r : POutcome SerDataModel) : List Nat :=
  match r with
  | .ok sd => get_keyhash sd.key_hash
  | .error => []
  | .crashed => []

/-- `eqkey` (serdes.rs:730-737): byte-for-byte comparison of the two cells'
stored `KeyHash` values, nothing else. -/
def eqkey (a b : SerDataModel) : Bool := a.key_hash == b.key_hash

/-- Static, per-type data of a registered topic type `T`: its field layout,
the derive-generated `has_key()` / `force_md5_keyhash()` constants, and
`key_cdr()` (the key holder's CDR encoding, 4-byte header included). -/
structure TopicModel where
  tys : List FieldTy
  has_key : Bool
  force_md5 : Bool
  key_cdr : List FieldVal → List Nat

/-- `serdata_from_iov` (serdes.rs:629-680): deserialize from the scatter-gather
list under the size bound; on success store the decoded sample and (for keyed
types) eagerly compute the key hash from `key_cdr()[4..]`; on a decode error
return a null pointer (`error`).  `crashed` marks the `&key_cdr[4..]` slice
panic, impossible for real key encodings (they always start with the 4-byte
header). -/
def serdata_from_iov (tt : TopicModel) (frags : List (List Nat)) (size : Nat) :
    POutcome SerDataModel :=
  match deserialize_sample tt.tys frags size with
  | .ok v =>
    if tt.has_key then
      if (tt.key_cdr v).length < 4 then .crashed
      else .ok ⟨SampleData.SDKData v, compute_key_hash tt.force_md5 ((tt.key_cdr v).drop 4)⟩
    else .ok ⟨SampleData.SDKData v, KeyHash.None⟩
  | .error => .error
  | .crashed => .crashed

/-- `serdata_from_fragchain` (serdes.rs:468-530): the fragchain walk collects
the fragments' payload slices into the same scatter-gather list `from_iov`
receives, and the rest of the body is identical. -/
def serdata_from_fragchain (tt : TopicModel) (frags : List (List Nat)) (size : Nat) :
    POutcome SerDataModel :=
  match deserialize_sample tt.tys frags size with
  | .ok v =>
    if tt.has_key then
      if (tt.key_cdr v).length < 4 then .crashed
      else .ok ⟨SampleData.SDKData v, compute_key_hash tt.force_md5 ((tt.key_cdr v).drop 4)⟩
    else .ok ⟨SampleData.SDKData v, KeyHash.None⟩
  | .error => .error
  | .crashed => .crashed

/-- `serdata_from_keyhash` (serdes.rs:563-593): refuse (null) for MD5-keyed
types; otherwise store a key-only cell whose 20-byte buffer is 4 zero header
bytes followed by the supplied 16-byte wire token. -/
def serdata_from_keyhash (tt : TopicModel) (token : List Nat) : Option SerDataModel :=
  if tt.force_md5 then none
  else some ⟨SampleData.SDKKey, KeyHash.CdrKey (List.replicate 4 0 ++ token)⟩

/-- `serdata_to_untyped` (serdes.rs:982-1003): a key-only cell carrying a copy
of the original cell's key hash. -/
def serdata_to_untyped (sd : SerDataModel) : SerDataModel :=
  ⟨SampleData.SDKKey, sd.key_hash⟩

/-- The `Point { #[key] id: u32, x: f64, y: f64 }` scenario from the spec:
field layout, derive results (`has_key` true since the key holder is
non-empty; `force_md5_keyhash` false since `u32` is fixed-width), and
`key_cdr` = the CDR encoding of the key holder `{ id }` (the first field). -/
def Point_topic : TopicModel :=
  ⟨[.tu32, .tf64, .tf64], true, false, fun v => cdr_serialize (v.take 1)⟩

/-- A topic whose single key field is a `String` — `force_md5_keyhash()` is
true by the derive (`is_variable_length` holds for `String`). -/
def StrKey_topic : TopicModel :=
  ⟨[.tstr], true, true, fun v => cdr_serialize (v.take 1)⟩

/-! ### Derive macro key classification (dds_derive/src/lib.rs) -/

/-- The slice of `syn::Type` the derive macro inspects: a path type (one
identifier plus whether it carries generic arguments, e.g. `Vec<u8>` has
`hasArgs = true`), an array type, or anything else. -/
inductive RustTy where
  | path (ident : String) (hasArgs : Bool)
  | array (elem : RustTy) (len : Nat)
  | other
deriving DecidableEq

/-- A struct field as the macro sees it: name, type, and whether it carries
the `#[topic_key]` attribute. -/
structure RustField where
  fname : String
  fty : RustTy
  is_topic_key : Bool
deriving DecidableEq

/-- `syn::Path::is_ident`: true only for a single-segment path with NO
generic arguments whose identifier matches. -/
def path_is_ident (t : RustTy) (s : String) : Bool :=
  match t with
  | .path i args => i == s && !args
  | _ => false

/-- `is_primitive_type_path` (lib.rs:182-204). -/
def is_primitive_type_path (t : RustTy) : Bool :=
  path_is_ident t "bool" || path_is_ident t "i8" || path_is_ident t "i16" ||
  path_is_ident t "i32" || path_is_ident t "i64" || path_is_ident t "i128" ||
  path_is_ident t "isize" || path_is_ident t "u8" || path_is_ident t "u16" ||
  path_is_ident t "u32" || path_is_ident t "u64" || path_is_ident t "u128" ||
  path_is_ident t "usize" || path_is_ident t "f32" || path_is_ident t "f64" ||
  path_is_ident t "String"

/-- `is_primitive` (lib.rs:208-214). -/
def is_primitive (f : RustField) : Bool :=
  match f.fty with
  | .path _ _ => is_primitive_type_path f.fty
  | _ => false

/-- `is_variable_length` (lib.rs:222-234): the macro's test for a key field
whose encoded length can vary at runtime. -/
def is_variable_length (f : RustField) : Bool :=
  match f.fty with
  | .path _ _ => path_is_ident f.fty "Vec" || path_is_ident f.fty "String"
  | _ => false

/-- What `build_key_holder_struct` (lib.rs:29-124) accumulates over the key
fields: the `variable_length` flag fed into the generated
`is_variable_length()` (hence `force_md5_keyhash()`), the names of the nested
key-holder types the generated code will reference, and the generated holder
field types. -/
structure KeyHolderInfo where
  variable_length : Bool
  contained_types : List String
  field_types : List RustTy
deriving DecidableEq

/-- The loop body of `build_key_holder_struct`; `error` models the macro's
`panic!` calls. -/
def build_key_holder_go : List RustField → KeyHolderInfo → Except String KeyHolderInfo
  | [], acc => .ok acc
  | f :: rest, acc =>
    if f.is_topic_key then
      if is_primitive f then
        build_key_holder_go rest
          { acc with
            variable_length := acc.variable_length || is_variable_length f,
            field_types := acc.field_types ++ [f.fty] }
      else
        match f.fty with
        | .path i args =>
          build_key_holder_go rest
            { acc with
              contained_types := acc.contained_types ++ [i ++ "KeyHolder_"],
              field_types := acc.field_types ++ [.path (i ++ "KeyHolder_") args] }
        | .array elem _ =>
          match elem with
          | .path _ _ =>
            if is_primitive_type_path elem then
              build_key_holder_go rest { acc with field_types := acc.field_types ++ [f.fty] }
            else .error "Only primitive arrays are supported as keys"
          | _ => .error "Unsupported type for array"
        | .other => .error "Keys need to be primitives, Path or array of primitives or Path"
    else build_key_holder_go rest acc

def build_key_holder_struct (fields : List RustField) : Except String KeyHolderInfo :=
  build_key_holder_go fields ⟨false, [], []⟩

/-- The generated `force_md5_keyhash()` for a holder without nested key
holders: the generated `is_variable_length()` is
`if !variable_length { <contained>::is_variable_length() || false } else
{ true }`, which for `contained_types = []` is just `variable_length`. -/
def force_md5_keyhash_flat (info : KeyHolderInfo) : Bool := info.variable_length

/-! ### Loan manager (dds_writer.rs lines 61-105 and 187-209) -/

/-- `enum LoanedInner<T>` (dds_writer.rs:61): the loaned buffer pointer and
the writer entity it came from, modelled as opaque ids. -/
inductive LoanedInner where
  | Uninitialized (p entity : Nat)
  | Initialized (p entity : Nat)
  | Empty
deriving DecidableEq

/-- Calls the loan code makes into the transport. -/
inductive LoanEvent where
  | dds_return_loan (entity p : Nat)
  | dds_write (entity p : Nat)
deriving DecidableEq

/-- `Drop for Loaned` (dds_writer.rs:90-105): a buffer in either live state is
returned to the transport; `Empty` does nothing. -/
def loaned_drop_effects : LoanedInner → List LoanEvent
  | .Uninitialized p e => [.dds_return_loan e p]
  | .Initialized p e => [.dds_return_loan e p]
  | .Empty => []

/-- The match arm of `DdsWriter::return_loan` (dds_writer.rs:187-209):
an `Uninitialized` buffer is returned via `dds_return_loan`, an `Initialized`
buffer is published via `dds_write`, `Empty` does nothing.  The match does
not change `buffer.inner`. -/
def return_loan_effects : LoanedInner → List LoanEvent
  | .Uninitialized p e => [.dds_return_loan e p]
  | .Initialized p e => [.dds_write e p]
  | .Empty => []

/-- All transport calls made by one `return_loan(buffer)` invocation:
`return_loan` consumes `buffer` by value and never sets `inner` to `Empty`,
so when the function returns, `Drop` runs on the unchanged state. -/
def return_loan_total_effects (inner : LoanedInner) : List LoanEvent :=
  return_loan_effects inner ++ loaned_drop_effects inner

/-! ### Sample array reallocation (`realloc_samples`, serdes.rs lines 383-422)

The transport's sample array holds raw `*mut Sample<T>` pointers, each created
by `Box::into_raw(Box::new(Sample::default()))`.  Allocation is modelled
explicitly: `heap` is the list of ids of live boxed samples and `next` the
next fresh id; destroying a sample means removing its id from the heap (which
in Rust requires `Box::from_raw` — dropping the raw pointer itself frees
nothing). -/

/-- `realloc_samples`: given the live heap, the next fresh id, the old pointer
array and the new count, returns (new array, new heap, next fresh id).
Growing pushes the old pointers and then freshly boxed defaults; shrinking
keeps the first `new_count` pointers — the code does `old.into_iter()
.take(new_count)` and drops the remaining raw pointers, which does not free
the boxes they point to, so the heap is unchanged. -/
def realloc_samples (heap : List Nat) (next : Nat) (old : List Nat) (new_count : Nat) :
    List Nat × List Nat × Nat :=
  if old.length ≤ new_count then
    let fresh := (List.range (new_count - old.length)).map (fun i => next + i)
    (old ++ fresh, heap ++ fresh, next + (new_count - old.length))
  else
    (old.take new_count, heap, next)

-- ======================================================================
-- Lemmas and theorems
-- ======================================================================

theorem SGReader.read_exhausted (st : SGReader) (h : st.sc_list = none) (n : Nat) :
    st.read n = some ([], st) := by
  unfold SGReader.read
  rw [h]

theorem SGReader.remaining_exhausted (st : SGReader) (h : st.sc_list = none) :
    st.remaining = [] := by
  unfold SGReader.remaining
  rw [h]

theorem SGReader.remaining_some (fs : List (List Nat)) (c o : Nat) :
    SGReader.remaining ⟨some fs, c, o⟩ = ((fs.drop c).flatten).drop o := rfl

theorem SGReader.read_some (fs : List (List Nat)) (c o n : Nat) :
    SGReader.read ⟨some fs, c, o⟩ n =
      (if c < fs.length then
        if o ≤ (fs.getD c []).length then
          (if min ((fs.getD c []).length - o) n = (fs.getD c []).length - o then
            (if fs.length ≤ c + 1 then
              some (((fs.getD c []).drop o).take (min ((fs.getD c []).length - o) n),
                ⟨none, c + 1, 0⟩)
             else
              some (((fs.getD c []).drop o).take (min ((fs.getD c []).length - o) n),
                ⟨some fs, c + 1, 0⟩))
           else
            some (((fs.getD c []).drop o).take (min ((fs.getD c []).length - o) n),
              ⟨some fs, c, o + min ((fs.getD c []).length - o) n⟩))
        else none
       else none) := rfl

/-- A single `read` on a live reader: it delivers exactly
`min (bytes remaining in the current slice) bufLen` bytes, taken at the
current offset, and the successor state carries exactly the rest. -/
theorem SGReader.read_alive (fs : List (List Nat)) (cur off n : Nat)
    (hcur : cur < fs.length) (hoff : off ≤ (fs.getD cur []).length) :
    ∃ st' : SGReader,
      SGReader.read ⟨some fs, cur, off⟩ n
        = some (((fs.getD cur []).drop off).take (min ((fs.getD cur []).length - off) n), st')
      ∧ ((fs.getD cur []).drop off).take (min ((fs.getD cur []).length - off) n) ++ st'.remaining
          = SGReader.remaining ⟨some fs, cur, off⟩
      ∧ st'.remaining
          = (SGReader.remaining ⟨some fs, cur, off⟩).drop (min ((fs.getD cur []).length - off) n)
      ∧ SGReader.OkFor fs st'
      ∧ (off < (fs.getD cur []).length → (∀ f ∈ fs, f ≠ []) → SGReader.GoodFor fs st') := by
  have hgd : fs.getD cur [] = fs[cur] := List.getD_eq_getElem fs [] hcur
  have hsplit : (fs.drop cur).flatten = fs.getD cur [] ++ (fs.drop (cur + 1)).flatten := by
    rw [List.drop_eq_getElem_cons hcur, List.flatten_cons, hgd]
  have hrem : SGReader.remaining ⟨some fs, cur, off⟩
      = (fs.getD cur []).drop off ++ (fs.drop (cur + 1)).flatten := by
    rw [SGReader.remaining_some, hsplit, List.drop_append_of_le_length hoff]
  have hlen : ((fs.getD cur []).drop off).length = (fs.getD cur []).length - off := by simp
  by_cases hfull : min ((fs.getD cur []).length - off) n = (fs.getD cur []).length - off
  · have htake : ((fs.getD cur []).drop off).take (min ((fs.getD cur []).length - off) n)
        = (fs.getD cur []).drop off := by
      rw [hfull, ← hlen, List.take_length]
    by_cases hlast : fs.length ≤ cur + 1
    · have hnil : fs.drop (cur + 1) = [] := List.drop_eq_nil_of_le hlast
      refine ⟨⟨none, cur + 1, 0⟩, ?_, ?_, ?_, Or.inl rfl, ?_⟩
      · rw [SGReader.read_some, if_pos hcur, if_pos hoff, if_pos hfull, if_pos hlast]
      · rw [htake, hrem, SGReader.remaining_exhausted _ rfl, hnil]
        simp
      · rw [SGReader.remaining_exhausted _ rfl, hrem, hfull, hnil,
          List.flatten_nil, List.append_nil, ← hlen, List.drop_length]
      · intro _ _
        left
        have h1 : cur + 1 = fs.length := by omega
        rw [h1]
    · push_neg at hlast
      refine ⟨⟨some fs, cur + 1, 0⟩, ?_, ?_, ?_, ?_, ?_⟩
      · rw [SGReader.read_some, if_pos hcur, if_pos hoff, if_pos hfull, if_neg (by omega)]
      · rw [htake, hrem, SGReader.remaining_some, List.drop_zero]
      · rw [SGReader.remaining_some, List.drop_zero, hrem, hfull,
          List.drop_append_of_le_length (le_of_eq hlen.symm), ← hlen, List.drop_length,
          List.nil_append]
      · exact Or.inr ⟨rfl, hlast, Nat.zero_le _⟩
      · intro _ hne
        refine Or.inr ⟨rfl, hlast, ?_⟩
        have hmem : fs.getD (cur + 1) [] ∈ fs := by
          rw [List.getD_eq_getElem fs [] hlast]
          exact List.getElem_mem _
        simpa [List.length_pos] using hne _ hmem
  · have hlt : n < (fs.getD cur []).length - off := by omega
    have hmin : min ((fs.getD cur []).length - off) n = n := Nat.min_eq_right (le_of_lt hlt)
    have hle2 : off + min ((fs.getD cur []).length - off) n ≤ (fs.getD cur []).length := by
      rw [hmin]; omega
    have hdd : (fs.getD cur []).drop (off + min ((fs.getD cur []).length - off) n)
        = ((fs.getD cur []).drop off).drop (min ((fs.getD cur []).length - off) n) := by
      rw [List.drop_drop, Nat.add_comm]
    refine ⟨⟨some fs, cur, off + min ((fs.getD cur []).length - off) n⟩, ?_, ?_, ?_, ?_, ?_⟩
    · rw [SGReader.read_some, if_pos hcur, if_pos hoff, if_neg hfull]
    · rw [SGReader.remaining_some, hsplit, List.drop_append_of_le_length hle2, hrem, hdd,
        ← List.append_assoc, List.take_append_drop]
    · rw [SGReader.remaining_some, hsplit, List.drop_append_of_le_length hle2, hrem,
        List.drop_append_of_le_length (by rw [hlen]; exact Nat.min_le_left _ _), hdd]
    · exact Or.inr ⟨rfl, hcur, hle2⟩
    · intro _ _
      refine Or.inr ⟨rfl, hcur, ?_⟩
      simp only
      omega

theorem SGReader.remaining_pos_of_good (fs : List (List Nat)) (st : SGReader)
    (h : st.sc_list = some fs ∧ st.slice_cursor < fs.length ∧
      st.slice_offset < (fs.getD st.slice_cursor []).length) :
    0 < st.remaining.length := by
  obtain ⟨h1, h2, h3⟩ := h
  obtain ⟨l, c, o⟩ := st
  simp only at h1 h2 h3
  subst h1
  have hsplit : (fs.drop c).flatten = fs.getD c [] ++ (fs.drop (c + 1)).flatten := by
    rw [List.drop_eq_getElem_cons h2, List.flatten_cons, List.getD_eq_getElem fs [] h2]
  rw [SGReader.remaining_some, hsplit]
  simp only [List.length_drop, List.length_append]
  omega

theorem runReads_good (fs : List (List Nat)) (hne : ∀ f ∈ fs, f ≠ []) :
    ∀ (bs : List Nat) (st : SGReader), SGReader.GoodFor fs st → (∀ b ∈ bs, 0 < b) →
      st.remaining.length ≤ bs.length →
      runReads st bs = some (st.remaining, ⟨none, fs.length, 0⟩) := by
  intro bs
  induction bs with
  | nil =>
    intro st hgood _ hlen
    rcases hgood with h | h
    · subst h
      rw [SGReader.remaining_exhausted _ rfl]
      rfl
    · have hp := SGReader.remaining_pos_of_good fs st h
      simp only [List.length_nil] at hlen
      omega
  | cons b rest ih =>
    intro st hgood hpos hlen
    rcases hgood with h | h
    · subst h
      have hrd := SGReader.read_exhausted ⟨none, fs.length, 0⟩ rfl b
      have hrem := SGReader.remaining_exhausted (⟨none, fs.length, 0⟩ : SGReader) rfl
      have := ih ⟨none, fs.length, 0⟩ (Or.inl rfl) (fun x hx => hpos x (List.mem_cons_of_mem _ hx))
        (by rw [hrem]; simp)
      unfold runReads
      rw [hrd]
      dsimp only
      rw [this, hrem]
      simp
    · obtain ⟨h1, h2, h3⟩ := h
      obtain ⟨l, c, o⟩ := st
      simp only at h1 h2 h3
      subst h1
      obtain ⟨st', hread, happ, hdrop, _, hgood'⟩ :=
        SGReader.read_alive fs c o b h2 (le_of_lt h3)
      have hchunklen : (((fs.getD c []).drop o).take (min ((fs.getD c []).length - o) b)).length
          = min ((fs.getD c []).length - o) b := by
        simp only [List.length_take, List.length_drop]
        omega
      have hcpos : 0 < min ((fs.getD c []).length - o) b := by
        have := hpos b (List.mem_cons_self _ _)
        omega
      have hlen' : st'.remaining.length ≤ rest.length := by
        have := congrArg List.length happ
        simp only [List.length_append, hchunklen] at this
        simp only [List.length_cons] at hlen
        omega
      have hrec := ih st' (hgood' h3 hne) (fun x hx => hpos x (List.mem_cons_of_mem _ hx)) hlen'
      unfold runReads
      rw [hread]
      dsimp only
      rw [hrec]
      dsimp only
      rw [happ]

/-- Claim C7: for every byte sequence split into a non-empty list of non-empty
fragments, reading the fragment reader with any sequence of non-empty caller
buffers (enough of them to cover the bytes) delivers exactly the original
bytes in order, and every read after exhaustion returns 0 bytes and leaves the
reader unchanged. -/
theorem sgreader_read_to_exhaustion (fs : List (List Nat)) (bs : List Nat)
    (h1 : fs ≠ []) (h2 : ∀ f ∈ fs, f ≠ []) (h3 : ∀ b ∈ bs, 0 < b)
    (h4 : fs.flatten.length ≤ bs.length) :
    runReads (SGReader.new fs) bs = some (fs.flatten, ⟨none, fs.length, 0⟩)
    ∧ ∀ n, SGReader.read ⟨none, fs.length, 0⟩ n = some ([], ⟨none, fs.length, 0⟩) := by
  have hpos : 0 < fs.length := List.length_pos.mpr h1
  have hhead : fs.getD 0 [] ∈ fs := by
    rw [List.getD_eq_getElem fs [] hpos]
    exact List.getElem_mem _
  have hgood : SGReader.GoodFor fs (SGReader.new fs) := by
    refine Or.inr ⟨rfl, hpos, ?_⟩
    show 0 < (fs.getD 0 []).length
    exact List.length_pos.mpr (h2 _ hhead)
  have hrem : (SGReader.new fs).remaining = fs.flatten := by
    rw [SGReader.new, SGReader.remaining_some]
    simp
  have := runReads_good fs h2 bs (SGReader.new fs) hgood h3 (by rw [hrem]; exact h4)
  rw [hrem] at this
  exact ⟨this, fun n => SGReader.read_exhausted _ rfl n⟩

theorem sgreader_read_to_exhaustion_witness :
    runReads (SGReader.new [[1, 2], [3]]) [2, 2, 2] = some ([1, 2, 3], ⟨none, 2, 0⟩)
    ∧ ∀ n, SGReader.read ⟨none, 2, 0⟩ n = some ([], ⟨none, 2, 0⟩) := by
  have h := sgreader_read_to_exhaustion [[1, 2], [3]] [2, 2, 2]
    (by decide) (by decide) (by decide) (by decide)
  exact h

/-- Claim C8 (counterexample): the claim says a single `read` whose buffer is
larger than what remains in the current fragment crosses the fragment boundary
within that call, returning `min (buffer length) (total remaining)` bytes.  On
the reader for fragments `[1..6], [7..11]` positioned at offset 5 of the first
fragment (exactly the state the repository's own `scatter_gather` test is in
for its second read), a read with a 5-byte buffer returns only the single byte
`[6]`, not `min 5 6 = 5` bytes. -/
theorem sgreader_boundary_single_call_counterexample :
    SGReader.read (SGReader.new [[1, 2, 3, 4, 5, 6], [7, 8, 9, 10, 11]]) 5
      = some ([1, 2, 3, 4, 5], ⟨some [[1, 2, 3, 4, 5, 6], [7, 8, 9, 10, 11]], 0, 5⟩)
    ∧ SGReader.read ⟨some [[1, 2, 3, 4, 5, 6], [7, 8, 9, 10, 11]], 0, 5⟩ 5
      = some ([6], ⟨some [[1, 2, 3, 4, 5, 6], [7, 8, 9, 10, 11]], 1, 0⟩)
    ∧ (SGReader.remaining ⟨some [[1, 2, 3, 4, 5, 6], [7, 8, 9, 10, 11]], 0, 5⟩).length = 6
    ∧ ([6] : List Nat).length ≠ min 5 6 := by
  decide

/-- Claim C8 as amended: a single `read` call on a live reader returns exactly
`min (bytes remaining in the current fragment) (buffer length)` bytes — a
request larger than the current fragment's remainder is satisfied only up to
the fragment end — and the next call resumes at the correct position (the
reader's undelivered-byte stream loses exactly the delivered prefix). -/
theorem sgreader_single_read_stays_in_fragment (fs : List (List Nat)) (cur off n : Nat)
    (hcur : cur < fs.length) (hoff : off ≤ (fs.getD cur []).length) :
    ∃ st' : SGReader,
      SGReader.read ⟨some fs, cur, off⟩ n
        = some (((fs.getD cur []).drop off).take (min ((fs.getD cur []).length - off) n), st')
      ∧ st'.remaining
          = (SGReader.remaining ⟨some fs, cur, off⟩).drop (min ((fs.getD cur []).length - off) n) := by
  obtain ⟨st', ha, _, hc, _, _⟩ := SGReader.read_alive fs cur off n hcur hoff
  exact ⟨st', ha, hc⟩

theorem sgreader_single_read_stays_in_fragment_witness :
    (0 : Nat) < ([[1, 2, 3], [4]] : List (List Nat)).length
    ∧ 1 ≤ (([[1, 2, 3], [4]] : List (List Nat)).getD 0 []).length
    ∧ ∃ st' : SGReader,
      SGReader.read ⟨some [[1, 2, 3], [4]], 0, 1⟩ 10
        = some (((([[1, 2, 3], [4]] : List (List Nat)).getD 0 []).drop 1).take
            (min ((([[1, 2, 3], [4]] : List (List Nat)).getD 0 []).length - 1) 10), st')
      ∧ st'.remaining
          = (SGReader.remaining ⟨some [[1, 2, 3], [4]], 0, 1⟩).drop
              (min ((([[1, 2, 3], [4]] : List (List Nat)).getD 0 []).length - 1) 10) :=
  ⟨by decide, by decide,
    sgreader_single_read_stays_in_fragment [[1, 2, 3], [4]] 0 1 10 (by decide) (by decide)⟩

theorem beBytes_length (w v : Nat) : (beBytes w v).length = w := by
  simp [beBytes]

theorem leBytes_length (w v : Nat) : (leBytes w v).length = w := by
  simp [leBytes]

theorem md5_length (msg : List Nat) : (md5 msg).length = 16 := by
  simp [md5, leBytes_length]

theorem encodeField_length (pos : Nat) (f : FieldVal) :
    (encodeField pos f).length = sizeField pos f := by
  cases f <;> simp [encodeField, sizeField, beBytes_length, Nat.add_assoc]

theorem encodeFields_length (fs : List FieldVal) :
    ∀ pos : Nat, (encodeFields pos fs).length = sizeFields pos fs := by
  induction fs with
  | nil => intro pos; rfl
  | cons f rest ih =>
    intro pos
    simp [encodeFields, sizeFields, encodeField_length, ih]

/-- Claim C6: for every decoded value held by a cell, the `get_size` callback
returns exactly the length of the serialized bytes the engine later produces
for that cell (`serialize_type`, whichever `maybe_size` hint it receives) —
the transport can pre-allocate exactly that many bytes. -/
theorem get_size_matches_serialized_length (v : List FieldVal) (kh : KeyHash)
    (ms : Option Nat) :
    get_size ⟨SampleData.SDKData v, kh⟩ = (serialize_type v ms).length := by
  cases ms <;>
      simp [get_size, serialize_type, cdr_serialize, calc_serialized_size,
        encodeFields_length] <;>
    omega

/-- The outcome is a clean error, or a success whose value satisfies `Q` —
in particular not a panic. -/
def POk {a : Type} (x : POutcome a) (Q : a → Prop) : Prop :=
  x = POutcome.error ∨ ∃ y, x = POutcome.ok y ∧ Q y

theorem POk_bind {a b : Type} {x : POutcome a} {f : a → POutcome b}
    {P : a → Prop} {Q : b → Prop}
    (hx : POk x P) (hf : ∀ y, P y → POk (f y) Q) : POk (x.bind f) Q := by
  rcases hx with h | ⟨y, hy, hP⟩
  · rw [h]; exact Or.inl rfl
  · rw [hy]; exact hf y hP

theorem POk_ne_crashed {a : Type} {x : POutcome a} {Q : a → Prop} (h : POk x Q) :
    x ≠ POutcome.crashed := by
  rcases h with h | ⟨y, hy, _⟩
  · simp [h]
  · simp [hy]

theorem SGReader.read_okFor (fs : List (List Nat)) (st : SGReader)
    (h : SGReader.OkFor fs st) (n : Nat) :
    ∃ c st1, st.read n = some (c, st1) ∧ SGReader.OkFor fs st1 := by
  rcases h with hnone | ⟨hsome, hcur, hoff⟩
  · exact ⟨[], st, SGReader.read_exhausted st hnone n, Or.inl hnone⟩
  · obtain ⟨l, c, o⟩ := st
    simp only at hsome hcur hoff
    subst hsome
    obtain ⟨st', ha, _, _, hok, _⟩ := SGReader.read_alive fs c o n hcur hoff
    exact ⟨_, st', ha, hok⟩

theorem readExactGo_okFor (fs : List (List Nat)) :
    ∀ (fuel n : Nat) (st : SGReader), SGReader.OkFor fs st →
      POk (readExactGo fuel st n) (fun r => SGReader.OkFor fs r.2) := by
  intro fuel
  induction fuel with
  | zero =>
    intro n st h
    cases n with
    | zero => exact Or.inr ⟨([], st), rfl, h⟩
    | succ m => exact Or.inl rfl
  | succ fuel ih =>
    intro n st h
    cases n with
    | zero => exact Or.inr ⟨([], st), rfl, h⟩
    | succ m =>
      obtain ⟨c, st1, hread, h1⟩ := SGReader.read_okFor fs st h (m + 1)
      unfold readExactGo
      rw [hread]
      dsimp only
      by_cases hz : c.length = 0
      · rw [if_pos hz]
        exact Or.inl rfl
      · rw [if_neg hz]
        rcases ih (m + 1 - c.length) st1 h1 with herr | ⟨⟨rest, st2⟩, hok, h2⟩
        · rw [herr]
          exact Or.inl rfl
        · rw [hok]
          exact Or.inr ⟨(c ++ rest, st2), rfl, h2⟩

theorem readBytesAt_okFor (fs : List (List Nat)) (bound : Nat) (st : SGReader)
    (pos n : Nat) (h : SGReader.OkFor fs st) :
    POk (readBytesAt bound st pos n) (fun r => SGReader.OkFor fs r.2.1) := by
  unfold readBytesAt
  by_cases hb : bound < 4 + pos + n
  · rw [if_pos hb]
    exact Or.inl rfl
  · rw [if_neg hb]
    rcases readExactGo_okFor fs n n st h with herr | ⟨⟨bytes, st1⟩, hok, h1⟩
    · rw [show readExact st n = POutcome.error from herr]
      exact Or.inl rfl
    · rw [show readExact st n = POutcome.ok (bytes, st1) from hok]
      exact Or.inr ⟨(bytes, st1, pos + n), rfl, h1⟩

theorem readAligned_okFor (fs : List (List Nat)) (bound : Nat) (st : SGReader)
    (pos align n : Nat) (h : SGReader.OkFor fs st) :
    POk (readAligned bound st pos align n) (fun r => SGReader.OkFor fs r.2.1) := by
  unfold readAligned
  exact POk_bind (readBytesAt_okFor fs bound st pos _ h)
    (fun r hr => readBytesAt_okFor fs bound r.2.1 r.2.2 n hr)

theorem decodeField_okFor (fs : List (List Nat)) (isLE : Bool) (bound : Nat)
    (ty : FieldTy) (st : SGReader) (pos : Nat) (h : SGReader.OkFor fs st) :
    POk (decodeField isLE bound ty st pos) (fun r => SGReader.OkFor fs r.2.1) := by
  cases ty
  case tu8 =>
    exact POk_bind (readBytesAt_okFor fs bound st pos 1 h)
      (fun r hr => Or.inr ⟨_, rfl, hr⟩)
  case tu16 =>
    exact POk_bind (readAligned_okFor fs bound st pos 2 2 h)
      (fun r hr => Or.inr ⟨_, rfl, hr⟩)
  case tu32 =>
    exact POk_bind (readAligned_okFor fs bound st pos 4 4 h)
      (fun r hr => Or.inr ⟨_, rfl, hr⟩)
  case tu64 =>
    exact POk_bind (readAligned_okFor fs bound st pos 8 8 h)
      (fun r hr => Or.inr ⟨_, rfl, hr⟩)
  case tf64 =>
    exact POk_bind (readAligned_okFor fs bound st pos 8 8 h)
      (fun r hr => Or.inr ⟨_, rfl, hr⟩)
  case tstr =>
    refine POk_bind (readAligned_okFor fs bound st pos 4 4 h) (fun r hr => ?_)
    by_cases hz : composeEnd isLE r.1 = 0
    · simp only [hz]
      exact Or.inl (by simp)
    · simp only [if_neg hz]
      exact POk_bind (readBytesAt_okFor fs bound r.2.1 r.2.2 _ hr)
        (fun r2 hr2 => Or.inr ⟨_, rfl, hr2⟩)

theorem decodeFields_okFor (fs : List (List Nat)) (isLE : Bool) (bound : Nat)
    (tys : List FieldTy) :
    ∀ (st : SGReader) (pos : Nat), SGReader.OkFor fs st →
      POk (decodeFields isLE bound tys st pos) (fun r => SGReader.OkFor fs r.2.1) := by
  induction tys with
  | nil => intro st pos h; exact Or.inr ⟨_, rfl, h⟩
  | cons t ts ih =>
    intro st pos h
    exact POk_bind (decodeField_okFor fs isLE bound t st pos h)
      (fun r hr => POk_bind (ih r.2.1 r.2.2 hr) (fun r2 hr2 => Or.inr ⟨_, rfl, hr2⟩))

theorem deserialize_sample_okFor (tys : List FieldTy) (frags : List (List Nat))
    (size : Nat) (hfr : frags ≠ []) :
    POk (deserialize_sample tys frags size) (fun _ => True) := by
  have hok0 : SGReader.OkFor frags (SGReader.new frags) :=
    Or.inr ⟨rfl, List.length_pos.mpr hfr, Nat.zero_le _⟩
  unfold deserialize_sample
  refine POk_bind (P := fun r => SGReader.OkFor frags r.2) ?_ ?_
  · by_cases hs : size < 4
    · rw [if_pos hs]
      exact Or.inl rfl
    · rw [if_neg hs]
      rcases readExactGo_okFor frags 4 4 (SGReader.new frags) hok0 with herr | ⟨⟨bytes, st1⟩, hk, h1⟩
    
      · rw [show readExact (SGReader.new frags) 4 = POutcome.error from herr]
        exact Or.inl rfl
      · rw [show readExact (SGReader.new frags) 4 = POutcome.ok (bytes, st1) from hk]
        exact Or.inr ⟨(bytes, st1), rfl, h1⟩
  · intro r hr
    match hm : r.1 with
    | [b0, b1, x2, x3] =>
      by_cases hhd : b0 = 0 ∧ b1 < 4
      · dsimp only
        rw [if_pos hhd]
        exact POk_bind (decodeFields_okFor frags (b1 % 2 == 1) size tys r.2 0 hr)
          (fun r2 _ => Or.inr ⟨_, rfl, trivial⟩)
      · dsimp only
        rw [if_neg hhd]
        exact Or.inl rfl
    | [] => exact Or.inl rfl
    | [x0] => exact Or.inl rfl
    | [x0, x1] => exact Or.inl rfl
    | [x0, x1, x2] => exact Or.inl rfl
    | x0 :: x1 :: x2 :: x3 :: x4 :: xs => exact Or.inl rfl

/-- Claim C5: on any non-empty fragment chain or iov list whose bytes do not
decode as a value of the registered type under the size bound, the decoding
itself never panics, and both decode callbacks turn the clean decode error
into a null result (so the transport can drop that one sample and continue). -/
theorem decode_failure_is_isolated (tt : TopicModel) (frags : List (List Nat))
    (size : Nat) (hfr : frags ≠ []) :
    deserialize_sample tt.tys frags size ≠ POutcome.crashed
    ∧ (deserialize_sample tt.tys frags size = POutcome.error →
        serdata_from_iov tt frags size = POutcome.error
        ∧ serdata_from_fragchain tt frags size = POutcome.error) := by
  refine ⟨POk_ne_crashed (deserialize_sample_okFor tt.tys frags size hfr), fun h => ?_⟩
  constructor
  · unfold serdata_from_iov
    rw [h]
  · unfold serdata_from_fragchain
    rw [h]

theorem decode_failure_is_isolated_witness :
    deserialize_sample Point_topic.tys [[0, 0, 0, 0, 1, 2]] 6 = POutcome.error
    ∧ serdata_from_iov Point_topic [[0, 0, 0, 0, 1, 2]] 6 = POutcome.error
    ∧ serdata_from_fragchain Point_topic [[0, 0, 0, 0, 1, 2]] 6 = POutcome.error
    ∧ deserialize_sample Point_topic.tys [[0, 0, 0, 0, 1, 2]] 6 ≠ POutcome.crashed := by
  have herr : deserialize_sample Point_topic.tys [[0, 0, 0, 0, 1, 2]] 6 = POutcome.error := by
    decide
  have h := decode_failure_is_isolated Point_topic [[0, 0, 0, 0, 1, 2]] 6 (by decide)
  exact ⟨herr, (h.2 herr).1, (h.2 herr).2, h.1⟩

/-- Claim C1 (code bug): decoding `Point { id = 0x12345678, x = 0.0, y = 0.0 }`
from its own wire bytes succeeds and stores the raw key bytes at offset 0 of
the 20-byte buffer, so the token `get_keyhash` exposes (the buffer with the
first 4 bytes skipped) is 16 zero bytes — not the big-endian bytes of `id`
zero-padded to 16 bytes as the claim (and the buffer's own header convention,
cf. `serdata_from_keyhash`) requires. -/
theorem point_get_keyhash_eval :
    serdata_from_fragchain Point_topic
        [cdr_serialize [FieldVal.vu32 305419896, FieldVal.vf64 0, FieldVal.vf64 0]] 28
      = POutcome.ok ⟨SampleData.SDKData [FieldVal.vu32 305419896, FieldVal.vf64 0, FieldVal.vf64 0],
          KeyHash.CdrKey ([18, 52, 86, 120] ++ List.replicate 16 0)⟩
    ∧ keyhash_token_of (serdata_from_fragchain Point_topic
        [cdr_serialize [FieldVal.vu32 305419896, FieldVal.vf64 0, FieldVal.vf64 0]] 28)
      = List.replicate 16 0
    ∧ List.replicate 16 0 ≠ ([18, 52, 86, 120] ++ List.replicate 12 0 : List Nat) := by
  decide

/-- Claim C2 (counterexample): for the MD5-classified topic with a single
`String` key holding `"boo"`, decoding succeeds, but the token the engine
exposes is neither the MD5 digest of the full key CDR bytes (header included)
nor any MD5 digest used verbatim — the digest is computed over the
header-stripped key bytes and stored at offset 0 of the 20-byte buffer, so the
exposed token is digest bytes 4..16 followed by 4 zero bytes. -/
theorem keyhash_md5_not_verbatim_counterexample :
    deserialize_sample StrKey_topic.tys [cdr_serialize [FieldVal.vstr [98, 111, 111]]] 12
      = POutcome.ok [FieldVal.vstr [98, 111, 111]]
    ∧ keyhash_token_of (serdata_from_fragchain StrKey_topic
        [cdr_serialize [FieldVal.vstr [98, 111, 111]]] 12)
      ≠ md5 (cdr_serialize [FieldVal.vstr [98, 111, 111]])
    ∧ keyhash_token_of (serdata_from_fragchain StrKey_topic
        [cdr_serialize [FieldVal.vstr [98, 111, 111]]] 12)
      ≠ md5 ((cdr_serialize [FieldVal.vstr [98, 111, 111]]).drop 4) := by
  decide

/-- Claim C2 as amended: for a Reduced-classified key (`force_md5_keyhash()`
true, or more than 16 key bytes after the header), the engine computes MD5
over the header-stripped key CDR bytes it is given, stores the digest at
offset 0 of the 20-byte buffer, and therefore exposes as the token the last
12 digest bytes followed by 4 zero bytes. -/
theorem keyhash_md5_reduced_token (b : Bool) (key : List Nat)
    (h : b = true ∨ 16 < key.length) :
    get_keyhash (compute_key_hash b key) = (md5 key).drop 4 ++ List.replicate 4 0 := by
  have hcond : (b || decide (16 < key.length)) = true := by
    rcases h with h | h
    · simp [h]
    · simp [h]
  unfold compute_key_hash
  rw [if_pos hcond]
  unfold get_keyhash
  dsimp only
  rw [List.drop_append_of_le_length (by rw [md5_length]; omega)]

theorem keyhash_md5_reduced_token_witness :
    (true = true ∨ 16 < ([] : List Nat).length)
    ∧ get_keyhash (compute_key_hash true []) = (md5 []).drop 4 ++ List.replicate 4 0 :=
  ⟨Or.inl rfl, keyhash_md5_reduced_token true [] (Or.inl rfl)⟩

/-- Claim C4 (code bug): a cell decoded from `Point { id = 0x12345678, .. }`
and a cell built by `serdata_from_keyhash` from the all-zero 16-byte wire
token expose byte-identical tokens through `get_keyhash`, yet `eqkey` reports
them different: decode stores the key bytes at offset 0 of the 20-byte buffer
while `from_keyhash` stores the token at offset 4, and `eqkey` compares the
whole stored buffers. -/
theorem eqkey_identical_tokens_eval :
    serdata_from_fragchain Point_topic
        [cdr_serialize [FieldVal.vu32 305419896, FieldVal.vf64 0, FieldVal.vf64 0]] 28
      = POutcome.ok ⟨SampleData.SDKData [FieldVal.vu32 305419896, FieldVal.vf64 0, FieldVal.vf64 0],
          KeyHash.CdrKey ([18, 52, 86, 120] ++ List.replicate 16 0)⟩
    ∧ serdata_from_keyhash Point_topic (List.replicate 16 0)
      = some ⟨SampleData.SDKKey, KeyHash.CdrKey (List.replicate 20 0)⟩
    ∧ get_keyhash (KeyHash.CdrKey ([18, 52, 86, 120] ++ List.replicate 16 0))
      = get_keyhash (KeyHash.CdrKey (List.replicate 20 0))
    ∧ eqkey ⟨SampleData.SDKData [FieldVal.vu32 305419896, FieldVal.vf64 0, FieldVal.vf64 0],
          KeyHash.CdrKey ([18, 52, 86, 120] ++ List.replicate 16 0)⟩
        ⟨SampleData.SDKKey, KeyHash.CdrKey (List.replicate 20 0)⟩ = false := by
  decide

/-- Claim C3 (code bug): the derive's variable-length test misses `Vec`.
`syn::Path::is_ident("Vec")` is false for `Vec<u8>` because the path segment
carries generic arguments, so `is_variable_length` returns false for a
`Vec<u8>` key field (while returning true for a `String` key field), and
`build_key_holder_struct` routes the field into the nested-key-holder branch,
generating a reference to a type `VecKeyHolder_` that does not exist — the
claim (and the macro's own comment) says any `Vec` key field makes
`force_md5_keyhash()` return true. -/
theorem vec_key_classification_eval :
    is_variable_length ⟨"v", RustTy.path "Vec" true, true⟩ = false
    ∧ is_variable_length ⟨"s", RustTy.path "String" false, true⟩ = true
    ∧ build_key_holder_struct [⟨"v", RustTy.path "Vec" true, true⟩]
      = Except.ok ⟨false, ["VecKeyHolder_"], [RustTy.path "VecKeyHolder_" true]⟩
    ∧ force_md5_keyhash_flat ⟨false, ["VecKeyHolder_"], [RustTy.path "VecKeyHolder_" true]⟩
      = false
    ∧ build_key_holder_struct [⟨"id", RustTy.path "u32" false, true⟩]
      = Except.ok ⟨false, [], [RustTy.path "u32" false]⟩
    ∧ build_key_holder_struct [⟨"id", RustTy.path "i32" false, true⟩,
        ⟨"x", RustTy.path "u32" false, false⟩, ⟨"s", RustTy.path "String" false, true⟩]
      = Except.ok ⟨true, [], [RustTy.path "i32" false, RustTy.path "String" false]⟩ :=
  ⟨rfl, rfl, rfl, rfl, rfl, rfl⟩

/-- Claim C9 (code bug): `return_loan` consumes the `Loaned` buffer without
resetting its state to `Empty`, so the buffer's `Drop` runs right after the
match and calls `dds_return_loan` a second time: an `Uninitialized` loan is
returned to the transport twice, and an `Initialized` loan is published via
`dds_write` and then also returned — no path handles the loan exactly once
(only an already-`Empty` buffer produces no calls at all). -/
theorem return_loan_double_release_eval :
    return_loan_total_effects (LoanedInner.Uninitialized 1 7)
      = [LoanEvent.dds_return_loan 7 1, LoanEvent.dds_return_loan 7 1]
    ∧ return_loan_total_effects (LoanedInner.Initialized 1 7)
      = [LoanEvent.dds_write 7 1, LoanEvent.dds_return_loan 7 1]
    ∧ return_loan_total_effects LoanedInner.Empty = [] := by
  decide

/-- Claim C10 (code bug): shrinking a two-sample array to one preserves the
first entry, but the truncated sample (id 1) stays in the heap of live boxes
while no longer being reachable from the array — it is forgotten (leaked),
not destroyed.  Growing from one to three preserves the first entry and
appends freshly allocated defaults. -/
theorem realloc_samples_shrink_leak_eval :
    realloc_samples [0, 1] 2 [0, 1] 1 = ([0], [0, 1], 2)
    ∧ 1 ∈ (realloc_samples [0, 1] 2 [0, 1] 1).2.1
    ∧ 1 ∉ (realloc_samples [0, 1] 2 [0, 1] 1).1
    ∧ realloc_samples [0] 1 [0] 3 = ([0, 1, 2], [0, 1, 2], 3) := by
  decide
